import Mathlib

/-!
# Verification of the viacep-sdk-go cache and client layer

A shallow embedding of the repository's `viacep` package:

* `Tok` / `GoValue` / gob codec — model of `encoding/gob` serialization used by
  both cache backends.  Serialized data is an opaque token sequence; encoding
  fails, with gob's error message, on channels, functions and structs with no
  exported fields, exactly as the repository's own tests record.
* `sha256Hex` / `cacheKey` — executable SHA-256 and the key-derivation function
  of `cache.go`, checked against the digests in the repository's test file.
* `memoryCache.Get/Set/Delete` — the in-memory backend (`cache.go`); TTL
  timers are reified as a list of scheduled deletions.
* `RedisCache.Get/Set` — the remote backend adapter, with the backend calls
  abstracted as function parameters.
* `ViaCep.Cep` / `ViaCep.Addresses` — the client operations (`client.go`),
  generic over the `Cache` interface, recording which URL (if any) was fetched.
* `HttpClient.Get` — the status-code / error-message logic of the transport.

Durations are modelled in seconds (Go's `3600 * time.Second` becomes `3600`).
-/

/-- One token of a serialized byte stream.  Go's gob output is an opaque
`[]byte`; we model the alphabet abstractly so that strings and integers embed
directly. -/
inductive Tok where
  | nat : Nat → Tok
  | int : Int → Tok
  | str : String → Tok
deriving DecidableEq, Repr

mutual

/-- A runtime Go value, as passed to the cache through `any`.  Covers the
shapes the SDK stores (strings, ints, structs such as `Address`, slices such
as `[]Address`) together with the non-serializable shapes exercised by the
tests (channels, functions, structs with no exported fields).  Type names are
carried for gob's error messages (`%T`). -/
inductive GoValue where
  | vstr : String → GoValue
  | vint : Int → GoValue
  | vlist : String → GoList → GoValue
  | vstruct : String → GoFields → GoValue
  | vchan : String → GoValue
  | vfunc : String → GoValue
deriving DecidableEq, Repr

/-- Elements of a slice value. -/
inductive GoList where
  | nil : GoList
  | cons : GoValue → GoList → GoList
deriving DecidableEq, Repr

/-- Exported fields of a struct value: field name and field value. -/
inductive GoFields where
  | fnil : GoFields
  | fcons : String → GoValue → GoFields → GoFields
deriving DecidableEq, Repr

end

/-- The Go dynamic type name of a value, as `%T` prints it. -/
def typeName : GoValue → String
  | .vstr _ => "string"
  | .vint _ => "int"
  | .vlist t _ => t
  | .vstruct t _ => t
  | .vchan t => t
  | .vfunc t => t

mutual

/-- gob's encoding error for a value, `none` when the value is serializable.
Channels and functions are rejected outright; a struct with no exported
fields is rejected with gob's dedicated message; containers fail on the first
offending member.  Message texts follow the repository's test expectations. -/
def gobErr : GoValue → Option String
  | .vstr _ => none
  | .vint _ => none
  | .vlist _ l => gobErrL l
  | .vstruct t fs =>
      match fs with
      | .fnil => some ("gob: type " ++ t ++ " has no exported fields")
      | .fcons n v rest => gobErrF (.fcons n v rest)
  | .vchan t => some ("gob NewTypeObject can't handle type: " ++ t)
  | .vfunc t => some ("gob NewTypeObject can't handle type: " ++ t)

/-- First encoding error among slice elements. -/
def gobErrL : GoList → Option String
  | .nil => none
  | .cons v l =>
      match gobErr v with
      | some e => some e
      | none => gobErrL l

/-- First encoding error among struct fields. -/
def gobErrF : GoFields → Option String
  | .fnil => none
  | .fcons _ v fs =>
      match gobErr v with
      | some e => some e
      | none => gobErrF fs

end

mutual

/-- Serialize a value to a token stream (the model of gob encoding).  Tags:
0 string, 1 int, 2 slice, 3 struct; 4/5 mark the unencodable shapes, which
`gobEncode` never emits. -/
def encodeVal : GoValue → List Tok
  | .vstr s => [.nat 0, .str s]
  | .vint i => [.nat 1, .int i]
  | .vlist t l => .nat 2 :: .str t :: .nat (lenL l) :: encodeL l
  | .vstruct t fs => .nat 3 :: .str t :: .nat (lenF fs) :: encodeF fs
  | .vchan t => [.nat 4, .str t]
  | .vfunc t => [.nat 5, .str t]

/-- Serialize slice elements back to back. -/
def encodeL : GoList → List Tok
  | .nil => []
  | .cons v l => encodeVal v ++ encodeL l

/-- Serialize struct fields: field name token, then the field value. -/
def encodeF : GoFields → List Tok
  | .fnil => []
  | .fcons n v fs => .str n :: (encodeVal v ++ encodeF fs)

/-- Number of slice elements. -/
def lenL : GoList → Nat
  | .nil => 0
  | .cons _ l => lenL l + 1

/-- Number of struct fields. -/
def lenF : GoFields → Nat
  | .fnil => 0
  | .fcons _ _ fs => lenF fs + 1

end

mutual

/-- Structural size of a value; a fuel bound for the decoder. -/
def nodes : GoValue → Nat
  | .vstr _ => 1
  | .vint _ => 1
  | .vlist _ l => nodesL l + 1
  | .vstruct _ fs => nodesF fs + 1
  | .vchan _ => 1
  | .vfunc _ => 1

/-- Structural size of slice elements. -/
def nodesL : GoList → Nat
  | .nil => 0
  | .cons v l => nodes v + nodesL l + 1

/-- Structural size of struct fields. -/
def nodesF : GoFields → Nat
  | .fnil => 0
  | .fcons _ v fs => nodes v + nodesF fs + 1

end

mutual

/-- Fuel-indexed decoder for one value; inverse of `encodeVal` on
serializable values. -/
def decodeVal : Nat → List Tok → Option (GoValue × List Tok)
  | 0, _ => none
  | f + 1, toks =>
      match toks with
      | .nat 0 :: .str s :: r => some (.vstr s, r)
      | .nat 1 :: .int i :: r => some (.vint i, r)
      | .nat 2 :: .str t :: .nat n :: r =>
          match decodeListN f n r with
          | some (l, r') => some (.vlist t l, r')
          | none => none
      | .nat 3 :: .str t :: .nat n :: r =>
          match decodeFieldsN f n r with
          | some (fs, r') => some (.vstruct t fs, r')
          | none => none
      | _ => none

/-- Decode exactly `n` slice elements. -/
def decodeListN : Nat → Nat → List Tok → Option (GoList × List Tok)
  | _, 0, r => some (.nil, r)
  | 0, _ + 1, _ => none
  | f + 1, n + 1, toks =>
      match decodeVal f toks with
      | some (v, r) =>
          match decodeListN f n r with
          | some (l, r') => some (.cons v l, r')
          | none => none
      | none => none

/-- Decode exactly `n` struct fields. -/
def decodeFieldsN : Nat → Nat → List Tok → Option (GoFields × List Tok)
  | _, 0, r => some (.fnil, r)
  | 0, _ + 1, _ => none
  | f + 1, n + 1, toks =>
      match toks with
      | .str fname :: rest =>
          match decodeVal f rest with
          | some (v, r) =>
              match decodeFieldsN f n r with
              | some (fs, r') => some (.fcons fname v fs, r')
              | none => none
          | none => none
      | _ => none

end

/-- gob encoding entry point: error (gob's message) on non-serializable
values, otherwise the token stream. -/
def gobEncode (v : GoValue) : Except String (List Tok) :=
  match gobErr v with
  | some e => .error e
  | none => .ok (encodeVal v)

/-- gob decoding entry point: succeeds only when the whole stream parses as
one value. -/
def gobDecode (toks : List Tok) : Option GoValue :=
  match decodeVal (toks.length + 1) toks with
  | some (v, []) => some v
  | _ => none

mutual

/-- Every value's encoding is strictly longer than its node count. -/
theorem nodes_lt_encodeVal_length (v : GoValue) : nodes v + 1 ≤ (encodeVal v).length :=
  match v with
  | .vstr _ => by simp [nodes, encodeVal]
  | .vint _ => by simp [nodes, encodeVal]
  | .vlist t l => by
      have h := nodesL_le_encodeL_length l
      simp only [nodes, encodeVal, List.length_cons]
      omega
  | .vstruct t fs => by
      have h := nodesF_le_encodeF_length fs
      simp only [nodes, encodeVal, List.length_cons]
      omega
  | .vchan _ => by simp [nodes, encodeVal]
  | .vfunc _ => by simp [nodes, encodeVal]

/-- Slice elements: size is bounded by encoded length. -/
theorem nodesL_le_encodeL_length (l : GoList) : nodesL l ≤ (encodeL l).length :=
  match l with
  | .nil => by simp [nodesL, encodeL]
  | .cons v l => by
      have h1 := nodes_lt_encodeVal_length v
      have h2 := nodesL_le_encodeL_length l
      simp only [nodesL, encodeL, List.length_append]
      omega

/-- Struct fields: size is bounded by encoded length. -/
theorem nodesF_le_encodeF_length (fs : GoFields) : nodesF fs ≤ (encodeF fs).length :=
  match fs with
  | .fnil => by simp [nodesF, encodeF]
  | .fcons n v fs => by
      have h1 := nodes_lt_encodeVal_length v
      have h2 := nodesF_le_encodeF_length fs
      simp only [nodesF, encodeF, List.length_cons, List.length_append]
      omega

end

mutual

/-- Decoding inverts encoding on serializable values, for any fuel at least
the value's size and any trailing stream. -/
theorem decodeVal_encodeVal (v : GoValue) (hv : gobErr v = none) (r : List Tok)
    (f : Nat) (hf : nodes v ≤ f) : decodeVal f (encodeVal v ++ r) = some (v, r) :=
  match v, f with
  | .vstr s, f + 1 => by simp [encodeVal, decodeVal]
  | .vint i, f + 1 => by simp [encodeVal, decodeVal]
  | .vlist t l, f + 1 => by
      have hl : gobErrL l = none := by simpa [gobErr] using hv
      have hfl : nodesL l ≤ f := by
        simp only [nodes] at hf; omega
      have ih := decodeListN_encodeL l hl r f hfl
      simp [encodeVal, decodeVal, ih]
  | .vstruct t fs, f + 1 => by
      match fs with
      | .fnil => simp [gobErr] at hv
      | .fcons n v0 fs0 =>
          have hfs : gobErrF (GoFields.fcons n v0 fs0) = none := by
            simpa [gobErr] using hv
          have hff : nodesF (GoFields.fcons n v0 fs0) ≤ f := by
            simp only [nodes] at hf; omega
          have ih := decodeFieldsN_encodeF (GoFields.fcons n v0 fs0) hfs r f hff
          simp [encodeVal, decodeVal, ih]
  | .vchan t, _ => by simp [gobErr] at hv
  | .vfunc t, _ => by simp [gobErr] at hv

/-- Decoding `lenL l` elements inverts `encodeL` on serializable elements. -/
theorem decodeListN_encodeL (l : GoList) (hl : gobErrL l = none) (r : List Tok)
    (f : Nat) (hf : nodesL l ≤ f) :
    decodeListN f (lenL l) (encodeL l ++ r) = some (l, r) :=
  match l, f with
  | .nil, f => by simp [encodeL, lenL, decodeListN]
  | .cons v l, f + 1 => by
      have hv : gobErr v = none := by
        cases h : gobErr v with
        | none => rfl
        | some e => simp [gobErrL, h] at hl
      have hl2 : gobErrL l = none := by
        cases h : gobErr v with
        | none => simpa [gobErrL, h] using hl
        | some e => simp [gobErrL, h] at hl
      have hfv : nodes v ≤ f := by simp only [nodesL] at hf; omega
      have hfl : nodesL l ≤ f := by simp only [nodesL] at hf; omega
      have ih1 := decodeVal_encodeVal v hv (encodeL l ++ r) f hfv
      have ih2 := decodeListN_encodeL l hl2 r f hfl
      simp [encodeL, lenL, decodeListN, List.append_assoc, ih1, ih2]

/-- Decoding `lenF fs` fields inverts `encodeF` on serializable fields. -/
theorem decodeFieldsN_encodeF (fs : GoFields) (hfs : gobErrF fs = none)
    (r : List Tok) (f : Nat) (hf : nodesF fs ≤ f) :
    decodeFieldsN f (lenF fs) (encodeF fs ++ r) = some (fs, r) :=
  match fs, f with
  | .fnil, f => by simp [encodeF, lenF, decodeFieldsN]
  | .fcons n v fs, f + 1 => by
      have hv : gobErr v = none := by
        cases h : gobErr v with
        | none => rfl
        | some e => simp [gobErrF, h] at hfs
      have hfs2 : gobErrF fs = none := by
        cases h : gobErr v with
        | none => simpa [gobErrF, h] using hfs
        | some e => simp [gobErrF, h] at hfs
      have hfv : nodes v ≤ f := by simp only [nodesF] at hf; omega
      have hff : nodesF fs ≤ f := by simp only [nodesF] at hf; omega
      have ih1 := decodeVal_encodeVal v hv (encodeF fs ++ r) f hfv
      have ih2 := decodeFieldsN_encodeF fs hfs2 r f hff
      simp [encodeF, lenF, decodeFieldsN, List.append_assoc, ih1, ih2]

end

/-- Full round trip: a serializable value decodes back from its encoding. -/
theorem gobDecode_gobEncode (v : GoValue) (hv : gobErr v = none) :
    gobDecode (encodeVal v) = some v := by
  have hlen := nodes_lt_encodeVal_length v
  have h := decodeVal_encodeVal v hv [] ((encodeVal v).length + 1) (by omega)
  simp only [List.append_nil] at h
  simp [gobDecode, h]

/-- Truncate to a 32-bit word. -/
def w32 (n : Nat) : Nat := n % 4294967296

/-- 32-bit right rotation. -/
def rotr32 (x n : Nat) : Nat := w32 ((x >>> n) ||| (x <<< (32 - n)))

/-- SHA-256 Σ0. -/
def bigSigma0 (x : Nat) : Nat := rotr32 x 2 ^^^ rotr32 x 13 ^^^ rotr32 x 22

/-- SHA-256 Σ1. -/
def bigSigma1 (x : Nat) : Nat := rotr32 x 6 ^^^ rotr32 x 11 ^^^ rotr32 x 25

/-- SHA-256 σ0. -/
def smallSigma0 (x : Nat) : Nat := rotr32 x 7 ^^^ rotr32 x 18 ^^^ (x >>> 3)

/-- SHA-256 σ1. -/
def smallSigma1 (x : Nat) : Nat := rotr32 x 17 ^^^ rotr32 x 19 ^^^ (x >>> 10)

/-- SHA-256 Ch. -/
def chFn (x y z : Nat) : Nat := (x &&& y) ^^^ ((x ^^^ 0xffffffff) &&& z)

/-- SHA-256 Maj. -/
def majFn (x y z : Nat) : Nat := (x &&& y) ^^^ (x &&& z) ^^^ (y &&& z)

/-- SHA-256 round constants (FIPS 180-4: the first 32 fractional-part bits
of the cube roots of the first 64 primes), written in decimal. -/
def kConst : List Nat :=
  [1116352408, 1899447441, 3049323471, 3921009573, 961987163,
   1508970993, 2453635748, 2870763221, 3624381080, 310598401,
   607225278, 1426881987, 1925078388, 2162078206, 2614888103,
   3248222580, 3835390401, 4022224774, 264347078, 604807628,
   770255983, 1249150122, 1555081692, 1996064986, 2554220882,
   2821834349, 2952996808, 3210313671, 3336571891, 3584528711,
   113926993, 338241895, 666307205, 773529912, 1294757372,
   1396182291, 1695183700, 1986661051, 2177026350, 2456956037,
   2730485921, 2820302411, 3259730800, 3345764771, 3516065817,
   3600352804, 4094571909, 275423344, 430227734, 506948616,
   659060556, 883997877, 958139571, 1322822218, 1537002063,
   1747873779, 1955562222, 2024104815, 2227730452, 2361852424,
   2428436474, 2756734187, 3204031479, 3329325298]

/-- The eight 32-bit working variables of SHA-256. -/
structure Sha256State where
  a : Nat
  b : Nat
  c : Nat
  d : Nat
  e : Nat
  f : Nat
  g : Nat
  hh : Nat

/-- SHA-256 initial hash value (FIPS 180-4: the first 32 fractional-part
bits of the square roots of the first 8 primes), written in decimal. -/
def sha256Init : Sha256State :=
  ⟨1779033703, 3144134277, 1013904242, 2773480762,
   1359893119, 2600822924, 528734635, 1541459225⟩

/-- One compression round; `kw` is the round constant plus schedule word. -/
def shaRound (st : Sha256State) (kw : Nat) : Sha256State :=
  let t1 := w32 (st.hh + bigSigma1 st.e + chFn st.e st.f st.g + kw)
  let t2 := w32 (bigSigma0 st.a + majFn st.a st.b st.c)
  ⟨w32 (t1 + t2), st.a, st.b, st.c, w32 (st.d + t1), st.e, st.f, st.g⟩

/-- Extend the 16-word block to the 64-word message schedule. -/
def scheduleExtend : Nat → List Nat → List Nat
  | 0, ws => ws
  | n + 1, ws =>
      let i := ws.length
      let w := w32 (smallSigma1 (ws.getD (i - 2) 0) + ws.getD (i - 7) 0 +
        smallSigma0 (ws.getD (i - 15) 0) + ws.getD (i - 16) 0)
      scheduleExtend n (ws ++ [w])

/-- Compress one 16-word chunk into the hash state. -/
def compressChunk (h : Sha256State) (ws16 : List Nat) : Sha256State :=
  let ws := scheduleExtend 48 ws16
  let kw := (kConst.zip ws).map fun p => p.1 + p.2
  let st := kw.foldl shaRound h
  ⟨w32 (h.a + st.a), w32 (h.b + st.b), w32 (h.c + st.c), w32 (h.d + st.d),
   w32 (h.e + st.e), w32 (h.f + st.f), w32 (h.g + st.g), w32 (h.hh + st.hh)⟩

/-- Split off the first `n` words. -/
def takeWords : Nat → List Nat → List Nat × List Nat
  | 0, ws => ([], ws)
  | _ + 1, [] => ([], [])
  | n + 1, w :: ws =>
      let p := takeWords n ws
      (w :: p.1, p.2)

/-- Fold the compression function over all 16-word chunks (fuel-indexed). -/
def processChunks : Nat → Sha256State → List Nat → Sha256State
  | 0, h, _ => h
  | fuel + 1, h, ws =>
      match ws with
      | [] => h
      | _ =>
          let p := takeWords 16 ws
          processChunks fuel (compressChunk h p.1) p.2

/-- Big-endian bytes of a value, fixed width. -/
def toBytesBE : Nat → Nat → List Nat
  | 0, _ => []
  | n + 1, v => toBytesBE n (v / 256) ++ [v % 256]

/-- SHA-256 message padding: 0x80, zeros, 64-bit big-endian bit length. -/
def sha256Pad (msg : List Nat) : List Nat :=
  let l := msg.length
  let k := (64 - (l + 9) % 64) % 64
  msg ++ [0x80] ++ List.replicate k 0 ++ toBytesBE 8 (8 * l)

/-- Group bytes into big-endian 32-bit words. -/
def bytesToWords : List Nat → List Nat
  | b0 :: b1 :: b2 :: b3 :: rest =>
      (((b0 * 256 + b1) * 256 + b2) * 256 + b3) :: bytesToWords rest
  | _ => []

/-- SHA-256 digest (32 bytes) of a byte sequence. -/
def sha256Bytes (msg : List Nat) : List Nat :=
  let ws := bytesToWords (sha256Pad msg)
  let st := processChunks (ws.length + 1) sha256Init ws
  toBytesBE 4 st.a ++ toBytesBE 4 st.b ++ toBytesBE 4 st.c ++ toBytesBE 4 st.d ++
    toBytesBE 4 st.e ++ toBytesBE 4 st.f ++ toBytesBE 4 st.g ++ toBytesBE 4 st.hh

/-- Lowercase hex digit. -/
def hexDigit (n : Nat) : Char := Char.ofNat (if n < 10 then 48 + n else 87 + n)

/-- Two lowercase hex characters of a byte. -/
def byteToHex (b : Nat) : List Char := [hexDigit (b / 16), hexDigit (b % 16)]

/-- Lowercase hex string of a byte sequence (Go's `%x`). -/
def bytesToHex (bs : List Nat) : String := String.mk (bs.foldr (fun b acc => byteToHex b ++ acc) [])

/-- UTF-8 bytes of one character. -/
def utf8Char (c : Char) : List Nat :=
  let n := c.toNat
  if n < 0x80 then [n]
  else if n < 0x800 then [0xc0 ||| (n >>> 6), 0x80 ||| (n &&& 0x3f)]
  else if n < 0x10000 then
    [0xe0 ||| (n >>> 12), 0x80 ||| ((n >>> 6) &&& 0x3f), 0x80 ||| (n &&& 0x3f)]
  else
    [0xf0 ||| (n >>> 18), 0x80 ||| ((n >>> 12) &&& 0x3f),
     0x80 ||| ((n >>> 6) &&& 0x3f), 0x80 ||| (n &&& 0x3f)]

/-- UTF-8 bytes of a string (Go's `[]byte(s)`). -/
def utf8Encode (s : String) : List Nat := s.data.foldr (fun c acc => utf8Char c ++ acc) []

/-- Hex SHA-256 digest of a string, as `fmt.Sprintf("%x", hash.Sum(nil))`. -/
def sha256Hex (s : String) : String := bytesToHex (sha256Bytes (utf8Encode s))

/-- The fixed cache-key namespace, Go's `cachePrefix` constant. -/
def keyNamespace : String := "viacep:"

/-- Model of `cacheKey` from `cache.go`: join the components with a comma, SHA-256,
hex-encode, prepend the namespace.  The Go variadic parameter becomes a list. -/
def cacheKey (value : List String) : String :=
  keyNamespace ++ sha256Hex (String.intercalate "," value)

/-- Lookup in an association list; model of reading Go's `map[string][]byte`. -/
def lookupA : List (String × List Tok) → String → Option (List Tok)
  | [], _ => none
  | (k, v) :: rest, key => if k = key then some v else lookupA rest key

/-- Insert or overwrite a key; model of `m[key] = value`. -/
def insertA : List (String × List Tok) → String → List Tok → List (String × List Tok)
  | [], key, val => [(key, val)]
  | (k, v) :: rest, key, val =>
      if k = key then (key, val) :: rest else (k, v) :: insertA rest key val

/-- Remove a key; model of `delete(m, key)`. -/
def eraseA : List (String × List Tok) → String → List (String × List Tok)
  | [], _ => []
  | (k, v) :: rest, key => if k = key then eraseA rest key else (k, v) :: eraseA rest key

/-- State of the in-memory backend: the `data` map of `memoryCache`. -/
structure MemoryCacheState where
  data : List (String × List Tok)
deriving DecidableEq, Repr

/-- Model of `newMemoryCache` from `cache.go`. -/
def newMemoryCache : MemoryCacheState := ⟨[]⟩

/-- A scheduled expiry: the goroutine `memoryCache.Set` spawns when
`ttl > 0`, which sleeps `delay` and then deletes `key` unconditionally. -/
structure Timer where
  key : String
  delay : Nat
deriving DecidableEq, Repr

/-- Result of `memoryCache.Set`: the returned error, the receiver's state
after the call, and the expiry goroutines spawned by the call. -/
structure SetResult where
  err : Option String
  state : MemoryCacheState
  timers : List Timer
deriving DecidableEq, Repr

/-- Model of `memoryCache.Get` from `cache.go`: missing key or failed decode give
`false`; the destination is written only on success. -/
def memoryCache.Get (st : MemoryCacheState) (key : String) (dest : GoValue) :
    Bool × GoValue :=
  match lookupA st.data key with
  | none => (false, dest)
  | some serialized =>
      match gobDecode serialized with
      | none => (false, dest)
      | some v => (true, v)

/-- Model of `memoryCache.Set` from `cache.go`: encode (erroring with the wrapped gob
message on a non-serializable value, leaving the map untouched), store the
bytes, and spawn a delete timer when `ttl > 0`. -/
def memoryCache.Set (st : MemoryCacheState) (key : String) (value : GoValue)
    (ttl : Nat) : SetResult :=
  match gobErr value with
  | some e =>
      ⟨some ("failed to encode value of type " ++ typeName value ++ ": " ++ e), st, []⟩
  | none =>
      ⟨none, ⟨insertA st.data key (encodeVal value)⟩,
        if 0 < ttl then [⟨key, ttl⟩] else []⟩

/-- Model of `memoryCache.Delete` from `cache.go`; always succeeds. -/
def memoryCache.Delete (st : MemoryCacheState) (key : String) : MemoryCacheState :=
  ⟨eraseA st.data key⟩

/-- What an expiry goroutine does once its sleep elapses: an unconditional
`Delete` of the captured key. -/
def fireTimer (st : MemoryCacheState) (t : Timer) : MemoryCacheState :=
  memoryCache.Delete st t.key

/-- Model of `RedisCache.Get` from `cache.go`: the backend call
`r.client.Get(ctx, key).Result()` is abstracted as `backendGet`; any backend
error (including redis.Nil for a missing key) gives `false`, as does a failed
decode; the destination is written only on success. -/
def RedisCache.Get (backendGet : String → Except String (List Tok)) (key : String)
    (dest : GoValue) : Bool × GoValue :=
  match backendGet key with
  | .error _ => (false, dest)
  | .ok val =>
      match gobDecode val with
      | none => (false, dest)
      | some v => (true, v)

/-- Model of `RedisCache.Set` from `cache.go`: encode (erroring with the wrapped gob
message on a non-serializable value), then forward to the backend write
`r.client.Set(ctx, key, bytes, ttl)`, wrapping its error.  The second
component records whether the backend write was attempted at all. -/
def RedisCache.Set (backendSet : List Tok → Nat → Option String) (value : GoValue)
    (ttl : Nat) : Option String × Bool :=
  match gobErr value with
  | some e =>
      (some ("failed to encode value of type " ++ typeName value ++ ": " ++ e), false)
  | none =>
      match backendSet (encodeVal value) ttl with
      | some e => (some ("failed to set value in cache: " ++ e), true)
      | none => (none, true)

/-- The `Address` record of `client.go` (13 string fields). -/
structure Address where
  cep : String
  logradouro : String
  complemento : String
  unidade : String
  bairro : String
  localidade : String
  uf : String
  estado : String
  regiao : String
  ibge : String
  gia : String
  ddd : String
  siafi : String
deriving DecidableEq, Repr

/-- An `Address` as the runtime value handed to the cache through `any`. -/
def addressGo (a : Address) : GoValue :=
  .vstruct "viacep.Address"
    (.fcons "Cep" (.vstr a.cep) (.fcons "Logradouro" (.vstr a.logradouro)
      (.fcons "Complemento" (.vstr a.complemento) (.fcons "Unidade" (.vstr a.unidade)
        (.fcons "Bairro" (.vstr a.bairro) (.fcons "Localidade" (.vstr a.localidade)
          (.fcons "Uf" (.vstr a.uf) (.fcons "Estado" (.vstr a.estado)
            (.fcons "Regiao" (.vstr a.regiao) (.fcons "Ibge" (.vstr a.ibge)
              (.fcons "Gia" (.vstr a.gia) (.fcons "Ddd" (.vstr a.ddd)
                (.fcons "Siafi" (.vstr a.siafi) .fnil)))))))))))))

/-- The zero `Address`, Go's `var address Address`. -/
def Address.zero : Address := ⟨"", "", "", "", "", "", "", "", "", "", "", "", ""⟩

/-- The `Cache` interface of `cache.go`, as the client sees it: a state type
`σ`, a `get` writing into a destination of value type `α`, and a `set`
returning an error and the updated state. -/
structure CacheImpl (σ α : Type) where
  get : σ → String → α → Bool × α
  set : σ → String → α → Nat → Option String × σ

/-- Outcome of one client operation: the returned value or error, the cache
state afterwards, and the URL fetched over HTTP (`none` when no HTTP request
was made). -/
structure ClientResult (α σ : Type) where
  result : Except String α
  state : σ
  requestedURL : Option String

/-- Constant `urlBase` from `client.go`. -/
def urlBase : String := "https://viacep.com.br"

/-- Constant `cacheTTL` from `cache.go`: one hour, in seconds. -/
def cacheTTL : Nat := 3600

/-- Model of `ViaCep.Cep` from `client.go`: derive the key from the code, try the
cache, otherwise GET `{base}/ws/{cep}/json/`, store the decoded result with
`cacheTTL` (discarding `Set`'s error), and return it.  The HTTP collaborator
is `http`; `zero` is the fresh `var address` destination. -/
def ViaCep.Cep {σ α : Type} (cache : CacheImpl σ α) (zero : α)
    (http : String → Except String α) (st : σ) (cep : String) : ClientResult α σ :=
  let key := cacheKey [cep]
  match cache.get st key zero with
  | (true, address) => ⟨.ok address, st, none⟩
  | (false, _) =>
      let url := urlBase ++ "/ws/" ++ cep ++ "/json/"
      match http url with
      | .error e => ⟨.error e, st, some url⟩
      | .ok address =>
          let r := cache.set st key address cacheTTL
          ⟨.ok address, r.2, some url⟩

/-- Model of `ViaCep.Addresses` from `client.go`: key derived from the three
components, endpoint `{base}/ws/{uf}/{cidade}/{logradouro}/json/`, otherwise
the same shape as `ViaCep.Cep`. -/
def ViaCep.Addresses {σ α : Type} (cache : CacheImpl σ α) (zero : α)
    (http : String → Except String α) (st : σ) (uf cidade logradouro : String) :
    ClientResult α σ :=
  let key := cacheKey [uf, cidade, logradouro]
  match cache.get st key zero with
  | (true, addresses) => ⟨.ok addresses, st, none⟩
  | (false, _) =>
      let url := urlBase ++ "/ws/" ++ uf ++ "/" ++ cidade ++ "/" ++ logradouro ++ "/json/"
      match http url with
      | .error e => ⟨.error e, st, some url⟩
      | .ok addresses =>
          let r := cache.set st key addresses cacheTTL
          ⟨.ok addresses, r.2, some url⟩

/-- The in-memory backend packaged as the client's `Cache` collaborator
(`New` wires `newMemoryCache()` into `ViaCep`).  Spawned timers are tracked
by `memoryCache.Set` itself and never fire on their own in this model. -/
def memCacheImpl : CacheImpl MemoryCacheState GoValue :=
  ⟨memoryCache.Get, fun st k v ttl =>
    let r := memoryCache.Set st k v ttl
    (r.err, r.state)⟩

/-- Outcome of the resty call in `HttpClient.Get`: either a transport error
or a response with a status code and the request URL resty echoes back. -/
inductive FetchOutcome where
  | transportError : String → FetchOutcome
  | response : Nat → String → FetchOutcome
deriving DecidableEq, Repr

/-- Model of `HttpClient.Get` from `client.go`, returning the error (`none` = nil):
non-pointer destination fails fast; a transport error is wrapped with the
URL; a non-200 status yields the URL- and status-carrying message; 200 is
success. -/
def HttpClient.Get (destIsPointer : Bool) (destTypeDesc : String) (url : String)
    (outcome : FetchOutcome) : Option String :=
  if destIsPointer = false then
    some ("expected a pointer for 'dest', but got " ++ destTypeDesc)
  else
    match outcome with
    | .transportError e => some ("failed to send GET request to " ++ url ++ ": " ++ e)
    | .response code reqURL =>
        if code ≠ 200 then
          some ("API request to " ++ reqURL ++ " returned status code " ++
            toString code ++ "; expected 200 (OK)")
        else none

/-- Looking up a key just inserted finds the inserted bytes. -/
theorem lookupA_insertA_self (m : List (String × List Tok)) (k : String) (v : List Tok) :
    lookupA (insertA m k v) k = some v := by
  induction m with
  | nil => simp [insertA, lookupA]
  | cons p rest ih =>
      obtain ⟨pk, pv⟩ := p
      by_cases h : pk = k
      · simp [insertA, h, lookupA]
      · simp [insertA, h, lookupA, ih]

/-- Inserting under one key leaves lookups of other keys unchanged. -/
theorem lookupA_insertA_ne (m : List (String × List Tok)) (k k2 : String)
    (v : List Tok) (h : k2 ≠ k) : lookupA (insertA m k v) k2 = lookupA m k2 := by
  have hk : ¬(k = k2) := fun hh => h hh.symm
  induction m with
  | nil => simp [insertA, lookupA, hk]
  | cons p rest ih =>
      obtain ⟨pk, pv⟩ := p
      by_cases hp : pk = k
      · subst hp
        simp [insertA, lookupA, hk, ih]
      · by_cases hq : pk = k2 <;> simp [insertA, hp, lookupA, hq, h, ih]

/-- An erased key is gone. -/
theorem lookupA_eraseA_self (m : List (String × List Tok)) (k : String) :
    lookupA (eraseA m k) k = none := by
  induction m with
  | nil => simp [eraseA, lookupA]
  | cons p rest ih =>
      obtain ⟨pk, pv⟩ := p
      by_cases h : pk = k
      · simp [eraseA, h, ih]
      · simp [eraseA, h, lookupA, ih]

/-- Erasing one key leaves lookups of other keys unchanged. -/
theorem lookupA_eraseA_ne (m : List (String × List Tok)) (k k2 : String)
    (h : k2 ≠ k) : lookupA (eraseA m k) k2 = lookupA m k2 := by
  have hk : ¬(k = k2) := fun hh => h hh.symm
  induction m with
  | nil => simp [eraseA, lookupA]
  | cons p rest ih =>
      obtain ⟨pk, pv⟩ := p
      by_cases hp : pk = k
      · subst hp
        simp [eraseA, lookupA, hk, ih]
      · by_cases hq : pk = k2 <;> simp [eraseA, hp, lookupA, hq, h, ih]

/-- The middle string occurs inside the concatenation `a ++ t ++ b`. -/
theorem isInfix_of_append (a t b : String) :
    List.IsInfix t.data (a ++ t ++ b).data :=
  ⟨a.data, b.data, by simp [String.data_append]⟩

/-- Values of type `Address` are always gob-serializable. -/
theorem gobErr_addressGo (a : Address) : gobErr (addressGo a) = none := by
  simp [addressGo, gobErr, gobErrF]

/-- The address of the spec's end-to-end example (CEP 01001-000). -/
def sampleAddress : Address :=
  ⟨"01001-000", "Praça da Sé", "lado ímpar", "", "Sé", "São Paulo", "SP",
   "São Paulo", "Sudeste", "3550308", "1004", "11", "7107"⟩

/-- The `dummy` struct of the repository's cache tests,
`dummy{ID: 1, Name: "John Doe", Age: 30}`. -/
def dummyModel : GoValue :=
  .vstruct "viacep.dummy"
    (.fcons "ID" (.vint 1) (.fcons "Name" (.vstr "John Doe")
      (.fcons "Age" (.vint 30) .fnil)))

/-- The corrupt bytes the tests plant under a key (`[]byte("invalid data")`):
a stream no encoding produces, on which decoding fails. -/
def corruptBytes : List Tok := [.str "invalid data"]

/-- C2: for every key and destination, cache `Get` returns `false` — with no
error channel, the result being identical to a plain miss — when the key is
absent, when the backend errors (Redis), and when deserialization fails; it
returns `true` exactly when the key is present and the stored bytes decode. -/
theorem cache_get_collapses_failures :
    (∀ st key dest, lookupA st.data key = none →
      memoryCache.Get st key dest = (false, dest)) ∧
    (∀ st key dest ser, lookupA st.data key = some ser → gobDecode ser = none →
      memoryCache.Get st key dest = (false, dest)) ∧
    (∀ st key dest, (memoryCache.Get st key dest).1 = true ↔
      ∃ ser v, lookupA st.data key = some ser ∧ gobDecode ser = some v) ∧
    (∀ g key dest e, g key = .error e → RedisCache.Get g key dest = (false, dest)) ∧
    (∀ g key dest val, g key = .ok val → gobDecode val = none →
      RedisCache.Get g key dest = (false, dest)) ∧
    (∀ g key dest, (RedisCache.Get g key dest).1 = true ↔
      ∃ val v, g key = .ok val ∧ gobDecode val = some v) := by
  refine ⟨?_, ?_, ?_, ?_, ?_, ?_⟩
  · intro st key dest h
    simp [memoryCache.Get, h]
  · intro st key dest ser h1 h2
    simp [memoryCache.Get, h1, h2]
  · intro st key dest
    constructor
    · intro h
      cases hl : lookupA st.data key with
      | none => simp [memoryCache.Get, hl] at h
      | some ser =>
          cases hd : gobDecode ser with
          | none => simp [memoryCache.Get, hl, hd] at h
          | some v => exact ⟨ser, v, rfl, hd⟩
    · rintro ⟨ser, v, hl, hd⟩
      simp [memoryCache.Get, hl, hd]
  · intro g key dest e h
    simp [RedisCache.Get, h]
  · intro g key dest val h1 h2
    simp [RedisCache.Get, h1, h2]
  · intro g key dest
    constructor
    · intro h
      cases hg : g key with
      | error e => simp [RedisCache.Get, hg] at h
      | ok val =>
          cases hd : gobDecode val with
          | none => simp [RedisCache.Get, hg, hd] at h
          | some v => exact ⟨val, v, rfl, hd⟩
    · rintro ⟨val, v, hg, hd⟩
      simp [RedisCache.Get, hg, hd]

/-- Witness for C2: the corrupt entry the repository's test plants is
reported as a plain miss, with the destination untouched. -/
theorem cache_get_collapses_failures_witness :
    memoryCache.Get ⟨[("user:invalid", corruptBytes)]⟩ "user:invalid" (.vstr "") =
      (false, .vstr "") :=
  cache_get_collapses_failures.2.1 ⟨[("user:invalid", corruptBytes)]⟩ "user:invalid"
    (.vstr "") corruptBytes rfl rfl

/-- C3: on the in-memory cache, `Set k v 0` succeeds for a serializable
value and a subsequent `Get k` finds it and restores exactly `v`, for any
prior destination contents. -/
theorem memory_cache_roundtrip (st : MemoryCacheState) (key : String) (v : GoValue)
    (hv : gobErr v = none) :
    (memoryCache.Set st key v 0).err = none ∧
    ∀ dest, memoryCache.Get (memoryCache.Set st key v 0).state key dest = (true, v) := by
  constructor
  · simp [memoryCache.Set, hv]
  · intro dest
    simp [memoryCache.Set, hv, memoryCache.Get, lookupA_insertA_self,
      gobDecode_gobEncode v hv]

/-- Witness for C3: the round trip on the test's `dummy` value. -/
theorem memory_cache_roundtrip_witness :
    (memoryCache.Set newMemoryCache "user:1" dummyModel 0).err = none ∧
    memoryCache.Get (memoryCache.Set newMemoryCache "user:1" dummyModel 0).state
      "user:1" (.vstr "") = (true, dummyModel) :=
  have h := memory_cache_roundtrip newMemoryCache "user:1" dummyModel rfl
  ⟨h.1, h.2 (.vstr "")⟩

/-- C4: `Set` on a non-serializable value returns gob's error wrapped with
the offending value's type name (which occurs verbatim in the message), the
in-memory map is left exactly as it was, no expiry is scheduled, and the
Redis adapter returns the same wrapped error without attempting any backend
write. -/
theorem cache_set_nonserializable (v : GoValue) (e : String) (hv : gobErr v = some e)
    (st : MemoryCacheState) (key : String) (ttl : Nat)
    (bset : List Tok → Nat → Option String) (ttl2 : Nat) :
    (memoryCache.Set st key v ttl).err =
      some ("failed to encode value of type " ++ typeName v ++ ": " ++ e) ∧
    (memoryCache.Set st key v ttl).state = st ∧
    (memoryCache.Set st key v ttl).timers = [] ∧
    RedisCache.Set bset v ttl2 =
      (some ("failed to encode value of type " ++ typeName v ++ ": " ++ e), false) ∧
    List.IsInfix (typeName v).data
      ("failed to encode value of type " ++ typeName v ++ ": " ++ e).data := by
  refine ⟨?_, ?_, ?_, ?_, ?_⟩
  · simp [memoryCache.Set, hv]
  · simp [memoryCache.Set, hv]
  · simp [memoryCache.Set, hv]
  · simp [RedisCache.Set, hv]
  · have h := isInfix_of_append "failed to encode value of type " (typeName v) (": " ++ e)
    simpa [String.data_append, List.append_assoc] using h

/-- Witness for C4: the channel value from the repository's test, producing
its exact expected error message and leaving the cache empty. -/
theorem cache_set_nonserializable_witness :
    (memoryCache.Set newMemoryCache "invalid:" (.vchan "chan int") 0).err =
      some "failed to encode value of type chan int: gob NewTypeObject can't handle type: chan int" ∧
    (memoryCache.Set newMemoryCache "invalid:" (.vchan "chan int") 0).state = newMemoryCache :=
  have h := cache_set_nonserializable (GoValue.vchan "chan int")
    "gob NewTypeObject can't handle type: chan int" (by decide)
    newMemoryCache "invalid:" 0 (fun _ _ => none) 0
  ⟨h.1.trans (by decide), h.2.1⟩

/-- C7: `Set` with `ttl = 0` on a serializable value schedules no removal —
the entry survives any `Set` or `Delete` on other keys and is removed only
by an explicit `Delete` of its key or an overwriting `Set`; with `ttl > 0`
exactly one removal of that key is scheduled after `ttl`, and a firing timer
deletes its key unconditionally. -/
theorem memory_set_expiry_schedule (st : MemoryCacheState) (key : String)
    (v : GoValue) (hv : gobErr v = none) :
    (memoryCache.Set st key v 0).timers = [] ∧
    (∀ ttl, 0 < ttl → (memoryCache.Set st key v ttl).timers = [⟨key, ttl⟩]) ∧
    (∀ st2 t, fireTimer st2 t = ⟨eraseA st2.data t.key⟩) ∧
    (∀ st2 t, lookupA (fireTimer st2 t).data t.key = none) ∧
    (∀ st2 k2 v2 ttl2, k2 ≠ key →
      lookupA ((memoryCache.Set st2 k2 v2 ttl2).state).data key = lookupA st2.data key) ∧
    (∀ st2 k2, k2 ≠ key →
      lookupA (memoryCache.Delete st2 k2).data key = lookupA st2.data key) := by
  refine ⟨?_, ?_, ?_, ?_, ?_, ?_⟩
  · simp [memoryCache.Set, hv]
  · intro ttl h
    simp [memoryCache.Set, hv, h]
  · intro st2 t
    rfl
  · intro st2 t
    simp [fireTimer, memoryCache.Delete, lookupA_eraseA_self]
  · intro st2 k2 v2 ttl2 h
    cases he : gobErr v2 with
    | some e => simp [memoryCache.Set, he]
    | none =>
        simp only [memoryCache.Set, he]
        exact lookupA_insertA_ne st2.data k2 key (encodeVal v2) (fun hh => h hh.symm)
  · intro st2 k2 h
    exact lookupA_eraseA_ne st2.data k2 key (fun hh => h hh.symm)

/-- Witness for C7: the test's `user:2` entry — no timer at `ttl = 0`, one
unconditional delete scheduled at a positive `ttl`. -/
theorem memory_set_expiry_schedule_witness :
    (memoryCache.Set newMemoryCache "user:2" dummyModel 0).timers = [] ∧
    (memoryCache.Set newMemoryCache "user:2" dummyModel 200).timers = [⟨"user:2", 200⟩] :=
  have h := memory_set_expiry_schedule newMemoryCache "user:2" dummyModel rfl
  ⟨h.1, h.2.1 200 (by decide)⟩

/-- C10: a `Get` of a key absent from the in-memory map reports `false` and
returns the destination exactly as it was passed in. -/
theorem memory_get_absent_leaves_dest (st : MemoryCacheState) (key : String)
    (dest : GoValue) (h : lookupA st.data key = none) :
    memoryCache.Get st key dest = (false, dest) := by
  simp [memoryCache.Get, h]

/-- Witness for C10: a nonexistent key in a nonempty cache leaves the
destination untouched. -/
theorem memory_get_absent_leaves_dest_witness :
    memoryCache.Get ⟨[("user:1", corruptBytes)]⟩ "user:nonexistent" dummyModel =
      (false, dummyModel) :=
  memory_get_absent_leaves_dest ⟨[("user:1", corruptBytes)]⟩ "user:nonexistent"
    dummyModel (by decide)

set_option maxRecDepth 100000

/-- Strings with equal character data are equal. -/
theorem string_eq_of_data_eq {s t : String} (h : s.data = t.data) : s = t := by
  cases s
  cases t
  simp_all

/-- C5: `cacheKey` is the fixed namespace `"viacep:"` followed by the hex
SHA-256 of the comma-joined components, hence deterministic; the three
concrete digests are the repository's own test vectors. -/
theorem cacheKey_construction :
    (∀ cs, cacheKey cs = "viacep:" ++ sha256Hex (String.intercalate "," cs)) ∧
    (∀ cs1 cs2 : List String, cs1 = cs2 → cacheKey cs1 = cacheKey cs2) ∧
    cacheKey ["part1", "part2", "part3"] =
      "viacep:93046c72a31da34f3f01241343d00bddc8edc3b386ebaef62f3b5083ec6257d9" ∧
    cacheKey ["single"] =
      "viacep:947f187506f7629c81c81879a2cb2256455038e4ac770091d897fa0a8b945e3b" ∧
    cacheKey [] =
      "viacep:e3b0c44298fc1c149afbf4c8996fb92427ae41e4649b934ca495991b7852b855" := by
  refine ⟨fun cs => rfl, fun cs1 cs2 h => by rw [h], ?_, ?_, ?_⟩
  · decide
  · decide
  · decide

/-- Witness for C5: determinism applied at a concrete tuple. -/
theorem cacheKey_construction_witness : cacheKey ["01001000"] = cacheKey ["01001000"] :=
  cacheKey_construction.2.1 ["01001000"] ["01001000"] rfl

/-- Counterexample to C6: the tuples `["a,b"]` and `["a", "b"]` are distinct
(they even differ in component count) yet produce identical cache keys —
comma-joining makes their hash inputs coincide, so this is an exact
collision, not a cryptographic one. -/
theorem cacheKey_comma_ambiguity :
    cacheKey ["a,b"] = cacheKey ["a", "b"] ∧ ["a,b"] ≠ (["a", "b"] : List String) := by
  constructor
  · decide
  · decide

/-- C6 (amended): distinct tuples produce distinct keys provided the hex
SHA-256 digests of their comma-joined component strings differ; tuples whose
components join to the same comma-string collide exactly. -/
theorem cacheKey_distinct_digests (t1 t2 : List String)
    (h : sha256Hex (String.intercalate "," t1) ≠ sha256Hex (String.intercalate "," t2)) :
    cacheKey t1 ≠ cacheKey t2 := by
  intro he
  apply h
  have hd : (keyNamespace ++ sha256Hex (String.intercalate "," t1)).data =
      (keyNamespace ++ sha256Hex (String.intercalate "," t2)).data :=
    congrArg String.data he
  rw [String.data_append, String.data_append] at hd
  exact string_eq_of_data_eq (List.append_cancel_left hd)

/-- Witness for C6 (amended): the digests of `"single"` and `""` differ, so
the keys of `["single"]` and `[]` differ. -/
theorem cacheKey_distinct_digests_witness :
    sha256Hex (String.intercalate "," ["single"]) ≠
      sha256Hex (String.intercalate "," ([] : List String)) ∧
    cacheKey ["single"] ≠ cacheKey [] :=
  have h : sha256Hex (String.intercalate "," ["single"]) ≠
      sha256Hex (String.intercalate "," ([] : List String)) := by decide
  ⟨h, cacheKey_distinct_digests ["single"] [] h⟩

/-- C8: with a pointer destination, the transport's status check succeeds
exactly on HTTP 200; any other status yields an error message carrying both
the requested URL and the observed status code verbatim. -/
theorem http_status_check (d url reqURL : String) (code : Nat) :
    (HttpClient.Get true d url (.response code reqURL) = none ↔ code = 200) ∧
    (code ≠ 200 →
      HttpClient.Get true d url (.response code reqURL) =
        some ("API request to " ++ reqURL ++ " returned status code " ++
          toString code ++ "; expected 200 (OK)") ∧
      List.IsInfix reqURL.data
        ("API request to " ++ reqURL ++ " returned status code " ++
          toString code ++ "; expected 200 (OK)").data ∧
      List.IsInfix (toString code).data
        ("API request to " ++ reqURL ++ " returned status code " ++
          toString code ++ "; expected 200 (OK)").data) := by
  constructor
  · by_cases hc : code = 200 <;> simp [HttpClient.Get, hc]
  · intro hc
    refine ⟨by simp [HttpClient.Get, hc], ?_, ?_⟩
    · have h := isInfix_of_append "API request to " reqURL
        (" returned status code " ++ toString code ++ "; expected 200 (OK)")
      simpa [String.data_append, List.append_assoc] using h
    · have h := isInfix_of_append
        ("API request to " ++ reqURL ++ " returned status code ")
        (toString code) "; expected 200 (OK)"
      simpa [String.data_append, List.append_assoc] using h

/-- Witness for C8: a 500 response produces the URL- and code-carrying
error. -/
theorem http_status_check_witness :
    HttpClient.Get true "*viacep.Address" "https://viacep.com.br/ws/01001000/json/"
        (.response 500 "https://viacep.com.br/ws/01001000/json/") =
      some ("API request to " ++ "https://viacep.com.br/ws/01001000/json/" ++
        " returned status code " ++ toString 500 ++ "; expected 200 (OK)") :=
  ((http_status_check "*viacep.Address" "https://viacep.com.br/ws/01001000/json/"
    "https://viacep.com.br/ws/01001000/json/" 500).2 (by decide)).1

/-- C1: `ViaCep.Cep` derives the key `cacheKey [cep]`; on a reported cache
hit it returns the cached value with nil error and issues no HTTP request;
on a miss it requests exactly `{base}/ws/{cep}/json/`, and on success stores
the decoded value under that key with the fixed TTL `cacheTTL = 3600`
seconds and returns it. -/
theorem cep_operation (σ α : Type) (cache : CacheImpl σ α) (zero : α)
    (http : String → Except String α) (st : σ) (cep : String) :
    (∀ a, cache.get st (cacheKey [cep]) zero = (true, a) →
      ViaCep.Cep cache zero http st cep = ⟨.ok a, st, none⟩) ∧
    (∀ d a, cache.get st (cacheKey [cep]) zero = (false, d) →
      http (urlBase ++ "/ws/" ++ cep ++ "/json/") = .ok a →
      ViaCep.Cep cache zero http st cep =
        ⟨.ok a, (cache.set st (cacheKey [cep]) a cacheTTL).2,
          some (urlBase ++ "/ws/" ++ cep ++ "/json/")⟩) ∧
    cacheTTL = 3600 := by
  refine ⟨?_, ?_, rfl⟩
  · intro a h
    simp [ViaCep.Cep, h]
  · intro d a h1 h2
    simp [ViaCep.Cep, h1, h2]

/-- Witness for C1: on an empty memory cache the lookup misses, the code
endpoint is fetched, and the result is stored with `cacheTTL`. -/
theorem cep_operation_witness :
    ViaCep.Cep memCacheImpl (addressGo Address.zero)
        (fun _ => Except.ok (addressGo sampleAddress)) newMemoryCache "01001000" =
      ⟨.ok (addressGo sampleAddress),
        (memCacheImpl.set newMemoryCache (cacheKey ["01001000"])
          (addressGo sampleAddress) cacheTTL).2,
        some (urlBase ++ "/ws/" ++ "01001000" ++ "/json/")⟩ :=
  (cep_operation MemoryCacheState GoValue memCacheImpl (addressGo Address.zero)
    (fun _ => Except.ok (addressGo sampleAddress)) newMemoryCache "01001000").2.1
    (addressGo Address.zero) (addressGo sampleAddress) rfl rfl

/-- C9: whenever the HTTP fetch succeeds on the network path, `ViaCep.Cep`
and `ViaCep.Addresses` return the fetched value with nil error for every
cache implementation — in particular whatever error its `Set` returns, that
error is discarded and never surfaced. -/
theorem client_ignores_set_error (σ α : Type) (cache : CacheImpl σ α) (zero : α)
    (http : String → Except String α) (st : σ) :
    (∀ cep d a, cache.get st (cacheKey [cep]) zero = (false, d) →
      http (urlBase ++ "/ws/" ++ cep ++ "/json/") = .ok a →
      (ViaCep.Cep cache zero http st cep).result = .ok a) ∧
    (∀ uf cidade logradouro d a,
      cache.get st (cacheKey [uf, cidade, logradouro]) zero = (false, d) →
      http (urlBase ++ "/ws/" ++ uf ++ "/" ++ cidade ++ "/" ++ logradouro ++ "/json/") =
        .ok a →
      (ViaCep.Addresses cache zero http st uf cidade logradouro).result = .ok a) := by
  constructor
  · intro cep d a h1 h2
    simp [ViaCep.Cep, h1, h2]
  · intro uf cidade logradouro d a h1 h2
    simp [ViaCep.Addresses, h1, h2]

/-- A cache whose writes always fail, to exhibit C9. -/
def alwaysFailCache : CacheImpl Unit GoValue :=
  ⟨fun _ _ d => (false, d), fun _ _ _ _ => (some "cache write failed", ())⟩

/-- Witness for C9: even with a cache whose `Set` always errors, the fetched
value is returned with nil error. -/
theorem client_ignores_set_error_witness :
    (ViaCep.Cep alwaysFailCache (addressGo Address.zero)
      (fun _ => Except.ok dummyModel) () "01001000").result = .ok dummyModel :=
  (client_ignores_set_error Unit GoValue alwaysFailCache (addressGo Address.zero)
    (fun _ => Except.ok dummyModel) ()).1 "01001000" (addressGo Address.zero)
    dummyModel rfl rfl
